import Mathlib

/-!
Shallow embedding of `src/DayGantt.py` (classes `Event`, `Instance`, `Owner`
and the method `Event.AddInstance`).

Modelling conventions:
* `datetime.datetime` timestamps are integers (e.g. seconds since an epoch);
  `datetime.time` values are naturals (seconds within a day);
  `datetime.timedelta` durations are integers (negative deltas are legal in
  Python, so they are legal here).
* `datetime.datetime.combine(datetime.datetime.today(), t)` is modelled by
  `combine today t` where `today` is the run's reference date, fixed for one
  run (the program is single-threaded and a run is one sequence of calls).
* Python's dynamically-typed `time` argument of `AddInstance` is an inductive
  `TimeArg`: a bare time-of-day, a full timestamp, or an invalid value
  (any other type, carried as a string).
* `logging.warning` / `logging.error` calls are modelled by a list of
  `LogEntry` values returned next to the updated event; each entry records
  its level and the data interpolated into the message.
* `list.sort()` / `sorted(...)` (Python's stable sort driven by
  `Instance.__lt__`, i.e. comparison of `start` fields) are modelled by
  `List.insertionSort` on the reflexive relation `Instance.le`; on lists
  whose `start` fields are pairwise distinct — the only lists the program
  ever sorts, thanks to the duplicate check — every sort agrees with it.
* Python's `==` on `Owner` objects is identity; since each constructed owner
  receives a fresh id from a global counter, identity is modelled by
  id equality.
-/

/-- The fixed palette `["red", "yellow", "green", "blue", "cyan", "magenta"]`
behind `Owner.colours = itertools.cycle(...)`. -/
def palette : List String :=
  ["red", "yellow", "green", "blue", "cyan", "magenta"]

/-- The process-wide mutable state consumed by `Owner.__init__`:
`Owner.counter` (an `itertools.count`) and the position of the
`itertools.cycle` over `palette`. Both advance by one per construction. -/
structure OwnerGen where
  counter : Nat
  colourIdx : Nat
deriving Repr, DecidableEq

/-- The state of the generators in a fresh process. -/
def OwnerGen.fresh : OwnerGen := ⟨0, 0⟩

/-- Class `Owner`: id from the global counter, name, rank (default 100 at the
call sites), and the colour drawn from the cycled palette. -/
structure Owner where
  id : Nat
  name : String
  rank : Int
  colour : String
deriving Repr, DecidableEq

/-- `Owner.__init__(name, rank)`: takes the global generator state, returns
the constructed owner and the advanced state. -/
def Owner.create (g : OwnerGen) (name : String) (rank : Int) : Owner × OwnerGen :=
  ({ id := g.counter
     name := name
     rank := rank
     colour := palette.getD (g.colourIdx % palette.length) "" },
   ⟨g.counter + 1, g.colourIdx + 1⟩)

/-- Constructing a batch of owners left to right from a generator state,
as one run of the program does. -/
def mkOwnersFrom (g : OwnerGen) : List (String × Int) → List Owner
  | [] => []
  | (n, r) :: rest =>
    let p := Owner.create g n r
    p.1 :: mkOwnersFrom p.2 rest

/-- A whole run's owner constructions, starting from a fresh process. -/
def mkOwners (rows : List (String × Int)) : List Owner :=
  mkOwnersFrom OwnerGen.fresh rows

/-- `Owner.__lt__`: rank ascending, name breaking ties. -/
def Owner.lt (a b : Owner) : Prop :=
  if a.rank = b.rank then a.name < b.name else a.rank < b.rank

instance : DecidableRel Owner.lt := fun a b => by
  unfold Owner.lt; infer_instance

/-- Python `==` between two `Owner` objects is object identity; ids are
unique per construction, so identity is id equality. -/
def Owner.idEq (a b : Owner) : Prop := a.id = b.id

instance : DecidableRel Owner.idEq := fun a b => by
  unfold Owner.idEq; infer_instance

/-- Class `Instance`: `start`, the optional `duration`, and the derived
`end` attribute (named `end_` since `end` is reserved). -/
structure Instance where
  start : Int
  duration : Option Int
  end_ : Int
deriving Repr, DecidableEq

/-- `Instance.__init__(time, duration=None)`. `if self.duration:` is Python
truthiness: `None` and the zero timedelta are falsy, so `end` is
`start + duration` only for a nonzero duration, else `start`. -/
def Instance.make (time : Int) (duration : Option Int) : Instance :=
  { start := time
    duration := duration
    end_ :=
      match duration with
      | some d => if d ≠ 0 then time + d else time
      | none => time }

/-- The (reflexive closure of the) ordering `Instance.__lt__` sorts by:
comparison of `start` fields. -/
def Instance.le (a b : Instance) : Prop := a.start ≤ b.start

instance : DecidableRel Instance.le := fun a b => by
  unfold Instance.le; infer_instance

instance : IsTotal Instance Instance.le :=
  ⟨fun a b => Int.le_total a.start b.start⟩

instance : IsTrans Instance Instance.le :=
  ⟨fun _ _ _ h h' => le_trans h h'⟩

/-- The result of `self.schedule.sort()` / `sorted(self.schedule)`: the
schedule sorted by start. -/
def sortByStart (l : List Instance) : List Instance :=
  List.insertionSort Instance.le l

/-- The dynamically-typed `time` argument of `AddInstance`. -/
inductive TimeArg where
  | timeOfDay (t : Nat)
  | dateTime (dt : Int)
  | invalid (s : String)
deriving Repr, DecidableEq

/-- `datetime.datetime.combine(today, t)`: the timestamp of time-of-day `t`
on the reference date `today` (dates counted in days, 86400 seconds each). -/
def combine (today : Int) (t : Nat) : Int :=
  today * 86400 + (t : Int)

/-- Levels of the `logging` calls the program makes. -/
inductive LogLevel where
  | warning
  | error
deriving Repr, DecidableEq

/-- One diagnostic emitted by `AddInstance`, with the data its message
interpolates. -/
inductive LogEntry where
  | outOfOrder (description : String) (time : Int) (last : Int)
  | duplicate (description : String) (time : Int)
  | badType
deriving Repr, DecidableEq

/-- The level each diagnostic is logged at. -/
def LogEntry.level : LogEntry → LogLevel
  | .outOfOrder _ _ _ => .warning
  | .duplicate _ _ => .warning
  | .badType => .error

/-- Class `Event`: id from its own counter, description, owner, and the
`schedule` list of instances. -/
structure Event where
  id : Nat
  description : String
  owner : Owner
  schedule : List Instance
deriving Repr, DecidableEq

/-- `Event.__init__(description, owner)`: fresh event with empty schedule. -/
def Event.make (id : Nat) (description : String) (owner : Owner) : Event :=
  { id := id, description := description, owner := owner, schedule := [] }

/-- `Event.__lt__`. -/
def Event.lt (s o : Event) : Prop :=
  match s.schedule, o.schedule with
  | i :: _, j :: _ =>
    if i.start = j.start then
      if Owner.idEq s.owner o.owner then s.description < o.description
      else Owner.lt s.owner o.owner
    else i.start < j.start
  | _, _ => Owner.lt s.owner o.owner

instance : DecidableRel Event.lt := fun s o => by
  unfold Event.lt
  rcases s.schedule with _ | ⟨i, rest⟩ <;> rcases o.schedule with _ | ⟨j, rest'⟩ <;>
    simp only <;> infer_instance

/-- `Event.__iter__`: yields `sorted(self.schedule)`. -/
def Event.iter (e : Event) : List Instance :=
  sortByStart e.schedule

/-- `Event.AddInstance(time, duration=None)`, returning the updated event
and the diagnostics logged by the call. `today` is the run's reference
date used by `datetime.datetime.today()`. -/
def Event.addInstance (e : Event) (today : Int) (time : TimeArg)
    (duration : Option Int) : Event × List LogEntry :=
  let time :=
    match time with
    | .timeOfDay t => TimeArg.dateTime (combine today t)
    | x => x
  match time with
  | .dateTime t =>
    let warns :=
      match e.schedule.getLast? with
      | some last => if t < last.start then [LogEntry.outOfOrder e.description t last.start] else []
      | none => []
    if t ∈ e.schedule.map Instance.start then
      (e, warns ++ [LogEntry.duplicate e.description t])
    else
      ({ e with schedule := sortByStart (e.schedule ++ [Instance.make t duration]) }, warns)
  | _ => (e, [LogEntry.badType])

/-- One run's worth of `AddInstance` calls on one event, all sharing the one
reference date of the run; diagnostics are discarded. -/
def Event.runCalls (e : Event) (today : Int) : List (TimeArg × Option Int) → Event
  | [] => e
  | (t, d) :: rest => Event.runCalls (e.addInstance today t d).1 today rest

/-- The "earliest scheduled Instance start time" of an event, as the
specification words it: the minimum over the stored start timestamps. -/
def earliestStart (e : Event) : Option Int := (e.schedule.map Instance.start).min?

/-- Owner ordering as the specification words it: rank ascending, then name
lexicographically. Written independently of `Owner.lt` for comparison. -/
def ownerOrderSpec (a b : Owner) : Prop :=
  a.rank < b.rank ∨ (a.rank = b.rank ∧ a.name < b.name)

/-- The Event comparison policy as the specification words it: both events
scheduled → earliest start ascending; equal earliest starts → description for
same owner, owner ordering for different owners; one or both unscheduled →
owner ordering. Written for comparison with `Event.lt`. -/
def eventLtSpec (s o : Event) : Prop :=
  match earliestStart s, earliestStart o with
  | some a, some b =>
    if a = b then
      if Owner.idEq s.owner o.owner then s.description < o.description
      else ownerOrderSpec s.owner o.owner
    else a < b
  | _, _ => ownerOrderSpec s.owner o.owner

/-- A concrete owner used to evaluate theorems on concrete inputs. -/
def wOwner : Owner := ⟨0, "cron", 100, "red"⟩

/-- A concrete event holding one instance starting at 5, used to evaluate
theorems on concrete inputs. -/
def wDupEvent : Event := ⟨0, "backup", wOwner, [Instance.make 5 none]⟩

/-! ### Sorting helpers and the schedule invariant -/

theorem sortByStart_sorted (l : List Instance) :
    List.Sorted Instance.le (sortByStart l) :=
  List.sorted_insertionSort Instance.le l

theorem sortByStart_perm (l : List Instance) : (sortByStart l).Perm l :=
  List.perm_insertionSort Instance.le l

/-- The start timestamps stored in an event's schedule, in list order. -/
def startsOf (e : Event) : List Int := e.schedule.map Instance.start

/-- The invariant `AddInstance` maintains: the stored schedule's start
timestamps are strictly increasing in list order. -/
def startsSorted (e : Event) : Prop := (startsOf e).Pairwise (· < ·)

theorem sorted_le_map_sortByStart (l : List Instance) :
    ((sortByStart l).map Instance.start).Pairwise (· ≤ ·) := by
  rw [List.pairwise_map]
  exact sortByStart_sorted l

theorem startsSorted_insert {e : Event} (t : Int) (d : Option Int)
    (h : startsSorted e) (hmem : t ∉ startsOf e) :
    ((sortByStart (e.schedule ++ [Instance.make t d])).map Instance.start).Pairwise
      (· < ·) := by
  have hperm := (sortByStart_perm (e.schedule ++ [Instance.make t d])).map Instance.start
  have hle := sorted_le_map_sortByStart (e.schedule ++ [Instance.make t d])
  have hnd0 : ((e.schedule ++ [Instance.make t d]).map Instance.start).Nodup := by
    rw [List.map_append, List.nodup_append]
    refine ⟨h.imp (fun hab => ne_of_lt hab), by simp, ?_⟩
    intro a ha hb
    simp [Instance.make] at hb
    exact hmem (hb ▸ ha)
  exact List.Sorted.lt_of_le hle (hperm.nodup_iff.mpr hnd0)

theorem addInstance_timeOfDay (e : Event) (today : Int) (t : Nat) (d : Option Int) :
    e.addInstance today (.timeOfDay t) d
      = e.addInstance today (.dateTime (combine today t)) d := rfl

theorem startsSorted_addInstance_dt (e : Event) (today t : Int) (d : Option Int)
    (h : startsSorted e) : startsSorted (e.addInstance today (.dateTime t) d).1 := by
  by_cases hmem : t ∈ e.schedule.map Instance.start
  · simp only [Event.addInstance, hmem, if_pos]
    exact h
  · simp only [Event.addInstance, hmem, if_neg, not_false_iff, ite_false]
    exact startsSorted_insert t d h hmem

theorem startsSorted_addInstance (e : Event) (today : Int) (t : TimeArg) (d : Option Int)
    (h : startsSorted e) : startsSorted (e.addInstance today t d).1 := by
  cases t with
  | timeOfDay tod =>
    rw [addInstance_timeOfDay]
    exact startsSorted_addInstance_dt e today (combine today tod) d h
  | dateTime dt => exact startsSorted_addInstance_dt e today dt d h
  | invalid s => exact h

theorem startsSorted_runCalls (today : Int) (calls : List (TimeArg × Option Int))
    (e : Event) (h : startsSorted e) : startsSorted (e.runCalls today calls) := by
  induction calls generalizing e with
  | nil => exact h
  | cons c rest ih =>
    cases c with
    | mk t d =>
      exact ih (e.addInstance today t d).1 (startsSorted_addInstance e today t d h)

theorem startsSorted_make (id : Nat) (desc : String) (ow : Owner) :
    startsSorted (Event.make id desc ow) := by
  simp [startsSorted, startsOf, Event.make]

theorem pairwise_le_head {l : List Instance}
    (h : (l.map Instance.start).Pairwise (· ≤ ·)) :
    ∀ i ∈ l, ∀ hd ∈ l.head?, hd.start ≤ i.start := by
  cases l with
  | nil => intro i hi; simp at hi
  | cons a t =>
    intro i hi hd hhd
    simp only [List.head?_cons, Option.mem_def, Option.some_inj] at hhd
    subst hhd
    rw [List.mem_cons] at hi
    rcases hi with rfl | hi
    · exact le_refl _
    · rw [List.map_cons, List.pairwise_cons] at h
      exact h.1 i.start (List.mem_map_of_mem Instance.start hi)

theorem pairwise_le_getLast {l : List Instance}
    (h : (l.map Instance.start).Pairwise (· ≤ ·)) :
    ∀ i ∈ l, ∀ la ∈ l.getLast?, i.start ≤ la.start := by
  induction l with
  | nil => intro i hi; simp at hi
  | cons a t ih =>
    intro i hi la hla
    cases t with
    | nil =>
      simp only [List.getLast?_singleton, Option.mem_def, Option.some_inj] at hla
      rw [List.mem_cons] at hi
      rcases hi with rfl | hi
      · exact hla ▸ le_refl _
      · simp at hi
    | cons b t' =>
      rw [List.getLast?_cons_cons] at hla
      rw [List.map_cons, List.pairwise_cons] at h
      rw [List.mem_cons] at hi
      rcases hi with rfl | hi
      · have hmem : la ∈ b :: t' := List.mem_of_mem_getLast? hla
        exact h.1 la.start (List.mem_map_of_mem Instance.start hmem)
      · exact ih h.2 i hi la hla

theorem addInstance_dt_not_mem (e : Event) (today t : Int) (d : Option Int)
    (hmem : t ∉ e.schedule.map Instance.start) :
    e.addInstance today (.dateTime t) d
      = ({ e with schedule := sortByStart (e.schedule ++ [Instance.make t d]) },
         match e.schedule.getLast? with
         | some last =>
           if t < last.start then [LogEntry.outOfOrder e.description t last.start] else []
         | none => []) := by
  unfold Event.addInstance
  simp [hmem]

theorem addInstance_dt_mem (e : Event) (today t : Int) (d : Option Int)
    (hmem : t ∈ e.schedule.map Instance.start) :
    e.addInstance today (.dateTime t) d
      = (e,
         (match e.schedule.getLast? with
          | some last =>
            if t < last.start then [LogEntry.outOfOrder e.description t last.start] else []
          | none => []) ++ [LogEntry.duplicate e.description t]) := by
  unfold Event.addInstance
  simp [hmem]

theorem foldl_min_of_le (t : List Int) (a : Int) (ha : ∀ x ∈ t, a ≤ x) :
    t.foldl min a = a := by
  induction t generalizing a with
  | nil => rfl
  | cons b t' ih =>
    rw [List.foldl_cons, min_eq_left (ha b (by simp))]
    exact ih a fun x hx => ha x (by simp [hx])

theorem min?_eq_head?_of_sorted (l : List Int) (h : l.Pairwise (· ≤ ·)) :
    l.min? = l.head? := by
  cases l with
  | nil => rfl
  | cons a t =>
    rw [List.pairwise_cons] at h
    show some (t.foldl min a) = some a
    rw [foldl_min_of_le t a h.1]

theorem owner_lt_iff_spec (a b : Owner) : Owner.lt a b ↔ ownerOrderSpec a b := by
  unfold Owner.lt ownerOrderSpec
  split_ifs with h <;> simp [h]

theorem lt_iff_spec_of_sorted {e1 e2 : Event}
    (h1 : startsSorted e1) (h2 : startsSorted e2) :
    (Event.lt e1 e2 ↔ eventLtSpec e1 e2) := by
  have m1 : earliestStart e1 = (e1.schedule.map Instance.start).head? :=
    min?_eq_head?_of_sorted _ (h1.imp fun hab => le_of_lt hab)
  have m2 : earliestStart e2 = (e2.schedule.map Instance.start).head? :=
    min?_eq_head?_of_sorted _ (h2.imp fun hab => le_of_lt hab)
  unfold eventLtSpec
  rw [m1, m2]
  unfold Event.lt
  cases he1 : e1.schedule with
  | nil => cases he2 : e2.schedule with
    | nil => simpa using owner_lt_iff_spec e1.owner e2.owner
    | cons j r2 => simpa using owner_lt_iff_spec e1.owner e2.owner
  | cons i r1 => cases he2 : e2.schedule with
    | nil => simpa using owner_lt_iff_spec e1.owner e2.owner
    | cons j r2 =>
      simp only [List.map_cons, List.head?_cons]
      show (if i.start = j.start then _ else _) ↔ (if i.start = j.start then _ else _)
      split_ifs with hstart hown
      · rfl
      · exact owner_lt_iff_spec e1.owner e2.owner
      · rfl

/-! ### Claim theorems -/

/-- C1: for every Event and every sequence of AddInstance calls on it (in any
order, including out-of-order additions), iterating the Event yields its
Instances (a permutation of the stored schedule) in non-decreasing
start-time order. -/
theorem iter_yields_sorted_instances (id : Nat) (desc : String) (ow : Owner)
    (today : Int) (calls : List (TimeArg × Option Int)) :
    ((((Event.make id desc ow).runCalls today calls).iter.map Instance.start).Pairwise
      (· ≤ ·)) ∧
    (((Event.make id desc ow).runCalls today calls).iter.Perm
      ((Event.make id desc ow).runCalls today calls).schedule) :=
  ⟨sorted_le_map_sortByStart _, sortByStart_perm _⟩

/-- C2: for every sequence of AddInstance calls, no two retained Instances
share a start timestamp; an AddInstance whose timestamp equals a stored
start leaves the event unchanged (the earlier Instance wins) and logs a
duplicate warning. -/
theorem no_duplicate_starts (id : Nat) (desc : String) (ow : Owner)
    (today : Int) (calls : List (TimeArg × Option Int)) :
    ((((Event.make id desc ow).runCalls today calls).schedule.map Instance.start).Nodup) ∧
    (∀ (e : Event) (t : Int) (d : Option Int), t ∈ e.schedule.map Instance.start →
      (e.addInstance today (.dateTime t) d).1 = e ∧
      LogEntry.duplicate e.description t ∈ (e.addInstance today (.dateTime t) d).2 ∧
      LogEntry.level (LogEntry.duplicate e.description t) = LogLevel.warning) := by
  constructor
  · exact (startsSorted_runCalls today calls _ (startsSorted_make id desc ow)).imp
      fun hab => ne_of_lt hab
  · intro e t d hmem
    rw [addInstance_dt_mem e today t d hmem]
    exact ⟨rfl, by simp, rfl⟩

/-- C2 witness: submitting timestamp 5 twice stores it once, and an add that
duplicates a stored start is a logged no-op. -/
theorem no_duplicate_starts_witness :
    ((((Event.make 0 "backup" wOwner).runCalls 0
        [(.dateTime 5, none), (.dateTime 5, none)]).schedule.map Instance.start).Nodup) ∧
    ((wDupEvent.addInstance 0 (.dateTime 5) none).1 = wDupEvent ∧
      LogEntry.duplicate wDupEvent.description 5 ∈
        (wDupEvent.addInstance 0 (.dateTime 5) none).2 ∧
      LogEntry.level (LogEntry.duplicate wDupEvent.description 5) = LogLevel.warning) := by
  have h := no_duplicate_starts 0 "backup" wOwner 0 [(.dateTime 5, none), (.dateTime 5, none)]
  exact ⟨h.1, h.2 wDupEvent 5 none (by decide)⟩

/-- C3: for every pair of Events reachable by AddInstance calls, the code's
comparison `Event.lt` coincides with the specified policy: earliest start
ascending when both are scheduled, description on same-owner ties, owner
ordering (rank then name) on different-owner ties and when one or both are
unscheduled. -/
theorem event_lt_matches_spec (id1 id2 : Nat) (d1 d2 : String) (o1 o2 : Owner)
    (today : Int) (calls1 calls2 : List (TimeArg × Option Int)) :
    (Event.lt ((Event.make id1 d1 o1).runCalls today calls1)
        ((Event.make id2 d2 o2).runCalls today calls2) ↔
      eventLtSpec ((Event.make id1 d1 o1).runCalls today calls1)
        ((Event.make id2 d2 o2).runCalls today calls2)) :=
  lt_iff_spec_of_sorted
    (startsSorted_runCalls today calls1 _ (startsSorted_make id1 d1 o1))
    (startsSorted_runCalls today calls2 _ (startsSorted_make id2 d2 o2))

/-- C10: after every sequence of AddInstance calls, the stored schedule list
is itself sorted ascending by start, so its first element has the earliest
start and its last element the latest. -/
theorem schedule_always_sorted (id : Nat) (desc : String) (ow : Owner)
    (today : Int) (calls : List (TimeArg × Option Int)) :
    ((((Event.make id desc ow).runCalls today calls).schedule.map Instance.start).Pairwise
      (· ≤ ·)) ∧
    (∀ i ∈ ((Event.make id desc ow).runCalls today calls).schedule,
      ∀ hd ∈ ((Event.make id desc ow).runCalls today calls).schedule.head?,
        hd.start ≤ i.start) ∧
    (∀ i ∈ ((Event.make id desc ow).runCalls today calls).schedule,
      ∀ la ∈ ((Event.make id desc ow).runCalls today calls).schedule.getLast?,
        i.start ≤ la.start) := by
  have hle : ((((Event.make id desc ow).runCalls today calls).schedule.map
      Instance.start).Pairwise (· ≤ ·)) :=
    (startsSorted_runCalls today calls _ (startsSorted_make id desc ow)).imp
      fun hab => le_of_lt hab
  exact ⟨hle, pairwise_le_head hle, pairwise_le_getLast hle⟩

/-- C10 witness: after adding 10 then 5 (out of order), the stored schedule is
the sorted list, its head bounds the instance starting at 10 from below and
its last element bounds the instance starting at 5 from above. -/
theorem schedule_always_sorted_witness :
    ((((Event.make 0 "backup" wOwner).runCalls 0
        [(.dateTime 10, none), (.dateTime 5, none)]).schedule.map Instance.start).Pairwise
      (· ≤ ·)) ∧
    (Instance.make 5 none).start ≤ (Instance.make 10 none).start ∧
    (Instance.make 5 none).start ≤ (Instance.make 10 none).start := by
  have h := schedule_always_sorted 0 "backup" wOwner 0 [(.dateTime 10, none), (.dateTime 5, none)]
  refine ⟨h.1, ?_, ?_⟩
  · exact h.2.1 (Instance.make 10 none) (by decide) (Instance.make 5 none) (by decide)
  · exact h.2.2 (Instance.make 5 none) (by decide) (Instance.make 10 none) (by decide)

/-- C4 fails as stated: `Instance.__init__` accepts a negative duration and
then derives `end = start + duration < start`. Counterexample at
`Instance.make 0 (some (-1))`. -/
theorem instance_end_ge_start_cex :
    ¬ ∀ (t : Int) (d : Option Int), (Instance.make t d).start ≤ (Instance.make t d).end_ :=
  fun h => absurd (h 0 (some (-1))) (by decide)

/-- C4 amended: for every Instance constructed with no duration or a
non-negative duration, end ≥ start after construction (and forever: an
`Instance` has no mutating operation). -/
theorem instance_end_ge_start (t : Int) (d : Option Int)
    (h : ∀ x ∈ d, 0 ≤ x) : (Instance.make t d).start ≤ (Instance.make t d).end_ := by
  cases d with
  | none => simp [Instance.make]
  | some x =>
    have hx : 0 ≤ x := h x (by simp)
    by_cases hx0 : x = 0 <;> simp [Instance.make, hx0]
    omega

/-- C4 witness: duration 3 on start 7. -/
theorem instance_end_ge_start_witness :
    (∀ x ∈ (some 3 : Option Int), 0 ≤ x) ∧
    (Instance.make 7 (some 3)).start ≤ (Instance.make 7 (some 3)).end_ :=
  ⟨fun x hx => by simp at hx; omega,
   instance_end_ge_start 7 (some 3) (fun x hx => by simp at hx; omega)⟩

/-- C5: an AddInstance call whose argument is neither a time-of-day nor a
full timestamp logs exactly one error-level diagnostic, stores nothing, and
returns the event unchanged (the function is total, so no exception reaches
the caller). -/
theorem addInstance_invalid_is_noop (e : Event) (today : Int) (s : String)
    (d : Option Int) :
    e.addInstance today (.invalid s) d = (e, [LogEntry.badType]) ∧
    (e.addInstance today (.invalid s) d).1.schedule.length = e.schedule.length ∧
    LogEntry.level LogEntry.badType = LogLevel.error :=
  ⟨rfl, rfl, rfl⟩

/-- C6: adding a timestamp earlier than the last (latest) stored start logs
an out-of-order warning, the call still reaches the duplicate check, and a
non-duplicate timestamp is stored (count grows by one). -/
theorem addInstance_out_of_order (e : Event) (today t : Int) (d : Option Int)
    (la : Instance) (hla : e.schedule.getLast? = some la) (hlt : t < la.start) :
    (LogEntry.outOfOrder e.description t la.start ∈
      (e.addInstance today (.dateTime t) d).2) ∧
    LogEntry.level (LogEntry.outOfOrder e.description t la.start) = LogLevel.warning ∧
    (t ∉ e.schedule.map Instance.start →
      t ∈ (e.addInstance today (.dateTime t) d).1.schedule.map Instance.start ∧
      (e.addInstance today (.dateTime t) d).1.schedule.length = e.schedule.length + 1) := by
  refine ⟨?_, rfl, ?_⟩
  · by_cases hmem : t ∈ e.schedule.map Instance.start
    · rw [addInstance_dt_mem e today t d hmem, hla]
      simp [hlt]
    · rw [addInstance_dt_not_mem e today t d hmem, hla]
      simp [hlt]
  · intro hmem
    rw [addInstance_dt_not_mem e today t d hmem]
    constructor
    · have hperm := (sortByStart_perm (e.schedule ++ [Instance.make t d])).map Instance.start
      rw [hperm.mem_iff]
      simp [Instance.make]
    · show (sortByStart (e.schedule ++ [Instance.make t d])).length = _
      rw [sortByStart, List.length_insertionSort]
      simp

/-- C6 witness: adding timestamp 3 to an event whose latest stored start is 5
logs the warning and stores the instance. -/
theorem addInstance_out_of_order_witness :
    (LogEntry.outOfOrder wDupEvent.description 3 (Instance.make 5 none).start ∈
      (wDupEvent.addInstance 0 (.dateTime 3) none).2) ∧
    LogEntry.level (LogEntry.outOfOrder wDupEvent.description 3
      (Instance.make 5 none).start) = LogLevel.warning ∧
    (3 ∈ (wDupEvent.addInstance 0 (.dateTime 3) none).1.schedule.map Instance.start ∧
      (wDupEvent.addInstance 0 (.dateTime 3) none).1.schedule.length
        = wDupEvent.schedule.length + 1) := by
  have h := addInstance_out_of_order wDupEvent 0 3 none (Instance.make 5 none)
    (by decide) (by decide)
  exact ⟨h.1, h.2.1, h.2.2 (by decide)⟩

/-- C7: an Instance constructed with a duration has end = start + duration
(also for the zero duration, which Python treats as falsy); one constructed
without a duration has end = start. -/
theorem instance_end_formula (t : Int) (d : Int) :
    (Instance.make t (some d)).end_ = t + d ∧ (Instance.make t none).end_ = t := by
  refine ⟨?_, rfl⟩
  by_cases h : d = 0 <;> simp [Instance.make, h]

/-- Colour of the k-th owner a run constructs: it depends only on the
generator position, advancing by one per construction through the cyclic
palette. -/
theorem mkOwnersFrom_colour (rows : List (String × Int)) (g : OwnerGen) (k : Nat)
    (hk : k < rows.length) :
    ((mkOwnersFrom g rows).getD k ⟨0, "", 0, ""⟩).colour
      = palette.getD ((g.colourIdx + k) % palette.length) "" := by
  induction rows generalizing g k with
  | nil => simp at hk
  | cons row rest ih =>
    cases row with
    | mk n r =>
      cases k with
      | zero => simp [mkOwnersFrom, Owner.create]
      | succ j =>
        have hj : j < rest.length := by
          simpa [Nat.succ_lt_succ_iff] using hk
        show ((mkOwnersFrom (Owner.create g n r).2 rest).getD j ⟨0, "", 0, ""⟩).colour = _
        rw [ih (Owner.create g n r).2 j hj]
        show palette.getD ((g.colourIdx + 1 + j) % palette.length) ""
          = palette.getD ((g.colourIdx + (j + 1)) % palette.length) ""
        congr 2
        omega

/-- C8: the style token of the k-th constructed Owner is a pure function of
k alone — independent of names and ranks: two runs constructing the same
number of Owners assign the k-th Owner the same token, namely the palette
entry at index k modulo the palette length. -/
theorem owner_colour_by_position (rows1 rows2 : List (String × Int)) (k : Nat)
    (hk : k < rows1.length) (hlen : rows1.length = rows2.length) :
    ((mkOwners rows1).getD k ⟨0, "", 0, ""⟩).colour = palette.getD (k % palette.length) "" ∧
    ((mkOwners rows1).getD k ⟨0, "", 0, ""⟩).colour
      = ((mkOwners rows2).getD k ⟨0, "", 0, ""⟩).colour := by
  have h1 := mkOwnersFrom_colour rows1 OwnerGen.fresh k hk
  have h2 := mkOwnersFrom_colour rows2 OwnerGen.fresh k (hlen ▸ hk)
  simp only [OwnerGen.fresh, Nat.zero_add] at h1 h2
  exact ⟨h1, h1.trans h2.symm⟩

/-- C8 witness: the second owners of two runs with different names and ranks
share the palette token at index 1. -/
theorem owner_colour_by_position_witness :
    ((mkOwners [("a", 1), ("b", 2)]).getD 1 ⟨0, "", 0, ""⟩).colour
      = palette.getD (1 % palette.length) "" ∧
    ((mkOwners [("a", 1), ("b", 2)]).getD 1 ⟨0, "", 0, ""⟩).colour
      = ((mkOwners [("c", 9), ("d", 0)]).getD 1 ⟨0, "", 0, ""⟩).colour :=
  owner_colour_by_position [("a", 1), ("b", 2)] [("c", 9), ("d", 0)] 1
    (by decide) (by decide)

/-- C9: within one run all bare time-of-day arguments are normalized against
the one reference date, an order-preserving (and injective) embedding of
times into timestamps, and `AddInstance` on a bare time behaves exactly as
on its normalized timestamp. -/
theorem bare_time_normalization (today : Int) (t1 t2 : Nat) (e : Event)
    (d : Option Int) :
    (t1 < t2 ↔ combine today t1 < combine today t2) ∧
    (t1 = t2 ↔ combine today t1 = combine today t2) ∧
    e.addInstance today (.timeOfDay t1) d
      = e.addInstance today (.dateTime (combine today t1)) d := by
  refine ⟨?_, ?_, rfl⟩
  · unfold combine; omega
  · unfold combine; omega
